import Mathlib

/-!
Verification of the Streaming Session Coordinator of the Author backend.

The definitions below are a shallow embedding of
`backend/services/agent_service.py` (the `stream_response` differencer loop
and the `AgentService` lifecycle methods) and of the websocket command
handlers in `backend/main.py`, together with the mode table of
`backend/prompts/prompt_templates.py`.

Modelling conventions:
* Python strings are Lean `String`s; the slice `s[k:]` is `pySlice s k`,
  which drops `k` characters (Python `len` counts characters, as does
  `String.length`).
* A streamed chunk (one full-state snapshot from `agent.astream` with
  `stream_mode="values"`) is a `Chunk`: the optional `messages` list, the
  optional `todos` value and the optional key list of the `files` dict.
  Todo entries are opaque values compared only for equality; they are
  modelled as strings, as are tool-call argument payloads.
* A LangChain message is reduced to the fields the loop reads: an
  `AIMessage` carries `content` (`none` models a non-string content, which
  the code replaces by `""`) and its `tool_calls` list; a tool message
  carries `tool_call_id` (`none` models a missing attribute) and `content`;
  every other message kind is `other`.
* External calls (`async_create_deep_agent`, the model constructor, OS path
  resolution) are out of the repository: agent construction is modelled as
  a handle recording the inputs that determine it, with an explicit
  `buildErr` parameter standing for an exception raised inside
  `_initialize_agent`; `Path(p).resolve()` is abstracted as the identity.
* An exception raised by the `agent.astream` iterator after yielding some
  chunks is the `sourceError` parameter of `stream_response`.  The only
  statement inside the loop body that can itself raise is
  `chunk["messages"][-1]` on an empty list; this is modelled explicitly.
-/

/-- A tool-call dict as found in `AIMessage.tool_calls`: the loop reads
`id`, `name` and `args` (args opaque, modelled as a string). -/
structure ToolCallDict where
  id : String
  name : String
  args : String
deriving DecidableEq

/-- The fields of a LangChain message read by `stream_response`. -/
inductive LCMessage where
  /-- An `AIMessage`: `content` is `some s` when the content is a string,
  `none` otherwise (the code then uses `""`); `tool_calls` is its list of
  tool-call dicts. -/
  | ai (content : Option String) (tool_calls : List ToolCallDict)
  /-- A message with `msg.type == 'tool'`; `tool_call_id` is `none` when
  the attribute is absent. -/
  | tool (tool_call_id : Option String) (content : String)
  /-- Any other message kind (human, system, ...). -/
  | other
deriving DecidableEq

/-- One chunk yielded by `agent.astream(..., stream_mode="values")`, reduced
to the keys the loop reads.  `files` is already the ordered key list of the
`files` dict (`list(chunk["files"].keys())`). -/
structure Chunk where
  messages : Option (List LCMessage)
  todos : Option (List String)
  files : Option (List String)
deriving DecidableEq

/-- The outbound wire events produced by `agent_service.py` / `main.py`
(the `type` discriminator becomes the constructor). -/
inductive Event where
  | streamChunk (content : String) (fullContent : String)
  | toolCall (tool : String) (args : String) (id : String)
  | toolResult (id : String) (result : String)
  | todosEvent (data : List String)
  | filesEvent (data : List String)
  | complete (message : String) (fullContent : String)
  | errorEvent (error : String)
  | streamStart
  | initialized (project_path : String) (author_mode : String)
  | projectChanged (project_path : String)
  | modeChanged (mode : String)
  | currentMode (mode : String)
deriving DecidableEq

/-- The per-turn differencer state of `stream_response` (its four local
accumulator variables). -/
structure StreamState where
  last_ai_content : String
  last_todos : List String
  last_files : List String
  current_tool_calls : List ToolCallDict
deriving DecidableEq

/-- The initial accumulator values of `stream_response`. -/
def initStreamState : StreamState :=
  { last_ai_content := "", last_todos := [], last_files := [],
    current_tool_calls := [] }

/-- Python slice `s[k:]`. -/
def pySlice (s : String) (k : Nat) : String := String.mk (s.data.drop k)

/-- The tool-call dedup loop: for each tool call whose id is not among the
ids of `current`, append it and emit a pending `tool-call` event
(`agent_service.py` lines 144-154). -/
def emitPendingToolCalls (current : List ToolCallDict) :
    List ToolCallDict → List Event × List ToolCallDict
  | [] => ([], current)
  | tc :: rest =>
    if (current.map ToolCallDict.id).contains tc.id then
      emitPendingToolCalls current rest
    else
      let out := emitPendingToolCalls (current ++ [tc]) rest
      (Event.toolCall tc.name tc.args tc.id :: out.1, out.2)

/-- The tool-result scan over all messages of a chunk: every message with
`type == 'tool'` and a truthy `tool_call_id` yields a completed
`tool-result` event (`agent_service.py` lines 156-167).  No dedup is
performed here. -/
def toolResultEvents : List LCMessage → List Event
  | [] => []
  | LCMessage.tool (some id) content :: rest =>
    if id = "" then toolResultEvents rest
    else Event.toolResult id content :: toolResultEvents rest
  | _ :: rest => toolResultEvents rest

/-- Step 1 of the loop body (`agent_service.py` lines 124-154), applied to
`chunk["messages"][-1]`: when the last message is an `AIMessage`, compute
and emit the content delta (guarded on being nonempty) and the pending
tool-call events; any other (or absent) last message leaves the state
untouched and emits nothing. -/
def contentAndToolCallsPart (st : StreamState) :
    Option LCMessage → List Event × StreamState
  | some (LCMessage.ai content tcs) =>
    let current_content := content.getD ""
    let afterContent : List Event × StreamState :=
      if current_content ≠ st.last_ai_content then
        let delta := pySlice current_content st.last_ai_content.length
        ((if delta ≠ "" then
            [Event.streamChunk delta current_content] else []),
         { st with last_ai_content := current_content })
      else ([], st)
    let toolPart := emitPendingToolCalls afterContent.2.current_tool_calls tcs
    (afterContent.1 ++ toolPart.1,
     { afterContent.2 with current_tool_calls := toolPart.2 })
  | _ => ([], st)

/-- Step 3 of the loop body (`agent_service.py` lines 169-177): emit the
whole todos value when present and different from the last one sent. -/
def todosPart (st : StreamState) : Option (List String) →
    List Event × StreamState
  | some ts =>
    if ts ≠ st.last_todos then
      ([Event.todosEvent ts], { st with last_todos := ts })
    else ([], st)
  | none => ([], st)

/-- Step 4 of the loop body (`agent_service.py` lines 179-187): emit the
key list of the files dict when present and different from the last one
sent. -/
def filesPart (st : StreamState) : Option (List String) →
    List Event × StreamState
  | some fs =>
    if fs ≠ st.last_files then
      ([Event.filesEvent fs], { st with last_files := fs })
    else ([], st)
  | none => ([], st)

/-- One iteration of the `async for chunk in self.agent.astream(...)` body
(`agent_service.py` lines 122-190): content delta, pending tool calls, tool
results, todos diff, files diff, in this order; this is the non-raising
path of the body. -/
def processChunkParts (st : StreamState) (c : Chunk) :
    List Event × StreamState :=
  let p1 := contentAndToolCallsPart st (c.messages.bind List.getLast?)
  let p2 := match c.messages with
    | some ms => toolResultEvents ms
    | none => []
  let p3 := todosPart p1.2 c.todos
  let p4 := filesPart p3.2 c.files
  (p1.1 ++ p2 ++ p3.1 ++ p4.1, p4.2)

/-- The loop body, including the `IndexError` raised by
`chunk["messages"][-1]` when the messages list is present but empty (no
event has been yielded at that point). -/
def processChunk (st : StreamState) (c : Chunk) :
    Except String (List Event × StreamState) :=
  match c.messages with
  | some [] => Except.error "list index out of range"
  | _ => Except.ok (processChunkParts st c)

/-- Run the loop body over the chunks the source yields, stopping at the
first chunk whose processing raises. -/
def runChunks (st : StreamState) : List Chunk →
    List Event × Except String StreamState
  | [] => ([], Except.ok st)
  | c :: cs =>
    match processChunk st c with
    | Except.ok out =>
      let rest := runChunks out.2 cs
      (out.1 ++ rest.1, rest.2)
    | Except.error m => ([], Except.error m)

/-- `AgentService.stream_response` run to exhaustion on one turn.  `chunks`
are the snapshots the source yields before completing; `sourceError = some
m` models the `astream` iterator raising after those chunks.  The
surrounding `try` appends exactly one terminal event: `complete` with the
accumulated content on success, `error` on any exception
(`agent_service.py` lines 116-203). -/
def stream_response (chunks : List Chunk) (sourceError : Option String) :
    List Event :=
  match runChunks initStreamState chunks with
  | (evs, Except.ok st) =>
    match sourceError with
    | none => evs ++ [Event.complete "Agent finished processing" st.last_ai_content]
    | some m => evs ++ [Event.errorEvent m]
  | (evs, Except.error m) => evs ++ [Event.errorEvent m]

/-- The main-agent prompt templates, one per mode: the prompt text itself is
opaque, so each template is a tag (`prompt_templates.py` lines 662-666). -/
inductive PromptId where
  | fictionMain
  | nonFictionMain
  | academicMain
deriving DecidableEq

/-- `MAIN_AGENT_TEMPLATES`: the mode → main-prompt dict, as an ordered
association list. -/
def MAIN_AGENT_TEMPLATES : List (String × PromptId) :=
  [("fiction", PromptId.fictionMain),
   ("non-fiction", PromptId.nonFictionMain),
   ("academic", PromptId.academicMain)]

/-- `get_main_agent_prompt`: dict `.get` with the fiction template as the
default for unknown modes (`prompt_templates.py` lines 693-695). -/
def get_main_agent_prompt (mode : String) : PromptId :=
  ((MAIN_AGENT_TEMPLATES.lookup mode).getD PromptId.fictionMain)

/-- `get_available_modes`: the key list of `MAIN_AGENT_TEMPLATES`
(`prompt_templates.py` lines 727-729). -/
def get_available_modes : List String :=
  MAIN_AGENT_TEMPLATES.map Prod.fst

/-- The handle returned by `async_create_deep_agent`, modelled by the
inputs that determine it: the main-agent instructions and the project path
the file tools are scoped to.  Two handles built from the same inputs are
not distinguished. -/
structure DeepAgent where
  instructions : PromptId
  project_scope : String
deriving DecidableEq

/-- The mutable state of an `AgentService` object
(`agent_service.py` lines 25-36). -/
structure AgentService where
  project_path : String
  author_mode : String
  agent : Option DeepAgent
deriving DecidableEq

/-- `Path(p).resolve()`: OS path normalization, abstracted as the identity
(no claim depends on normalization semantics). -/
def resolvePath (p : String) : String := p

/-- `AgentService._initialize_agent` (`agent_service.py` lines 38-80):
builds a fresh deep-agent handle from the service's current `project_path`
and `author_mode` and assigns it to `self.agent`; `buildErr = some m`
models an exception raised by the external constructor, in which case
`self.agent` is left untouched (the assignment is the last statement). -/
def initialize_agent (svc : AgentService) (buildErr : Option String) :
    Except String AgentService :=
  match buildErr with
  | some m => Except.error m
  | none =>
    Except.ok
      { svc with agent := some (DeepAgent.mk (get_main_agent_prompt svc.author_mode) svc.project_path) }

/-- `AgentService.__init__` (`agent_service.py` lines 25-36): resolve the
path, store the mode unvalidated, then `_initialize_agent`.  On failure the
exception propagates and no service object is returned. -/
def AgentService.create (project_path : String) (author_mode : String)
    (buildErr : Option String) : Except String AgentService :=
  initialize_agent
    { project_path := resolvePath project_path, author_mode := author_mode,
      agent := none } buildErr

/-- `AgentService.change_project` (`agent_service.py` lines 252-260):
assigns the resolved new path to `self.project_path` first, then rebuilds
the agent.  When the rebuild raises, the error carries the post-exception
object state: the path already mutated, the agent handle unchanged. -/
def change_project (svc : AgentService) (new_project_path : String)
    (buildErr : Option String) :
    Except (String × AgentService) AgentService :=
  let svc1 := { svc with project_path := resolvePath new_project_path }
  match initialize_agent svc1 buildErr with
  | Except.ok svc2 => Except.ok svc2
  | Except.error m => Except.error (m, svc1)

/-- The distinction `main.py` makes when catching exceptions from
`change_mode`: a `ValueError` is forwarded verbatim, any other exception is
prefixed. -/
inductive PyError where
  | valueError (msg : String)
  | otherError (msg : String)
deriving DecidableEq

/-- The constant tail of the `ValueError` message of
`AgentService.change_mode` (the Python text renders the list repr of
`get_available_modes()` and puts quote characters around the mode; the
quote characters are elided here). -/
def availableModesText : String :=
  ". Available modes: [" ++ String.intercalate ", " get_available_modes ++ "]"

/-- `AgentService.change_mode` (`agent_service.py` lines 262-275):
validates membership in `get_available_modes()` first and raises
`ValueError` naming the mode if absent; only then mutates
`self.author_mode` and rebuilds the agent.  On a rebuild failure the error
carries the object with the mode already mutated. -/
def change_mode (svc : AgentService) (new_mode : String)
    (buildErr : Option String) :
    Except (PyError × AgentService) AgentService :=
  if new_mode ∈ get_available_modes then
    let svc1 := { svc with author_mode := new_mode }
    match initialize_agent svc1 buildErr with
    | Except.ok svc2 => Except.ok svc2
    | Except.error m => Except.error (PyError.otherError m, svc1)
  else
    Except.error
      (PyError.valueError ("Invalid mode " ++ new_mode ++ availableModesText),
       svc)

/-- The `init` branch of the websocket loop (`main.py` lines 118-144).
The loop-local `agent_service` variable (`none` while uninitialized) is
threaded explicitly; the returned events are what the branch sends.  A
missing or empty `project_path` is rejected (`if not project_path`);
otherwise a new `AgentService` is constructed — replacing any existing one
on success — and `initialized` is echoed with the raw inputs. -/
def handle_init (agent_service : Option AgentService)
    (project_path : Option String) (author_mode : Option String)
    (buildErr : Option String) : Option AgentService × List Event :=
  match project_path with
  | none =>
    (agent_service, [Event.errorEvent "project_path is required for initialization"])
  | some p =>
    if p = "" then
      (agent_service, [Event.errorEvent "project_path is required for initialization"])
    else
      let mode := author_mode.getD "fiction"
      match AgentService.create p mode buildErr with
      | Except.ok svc => (some svc, [Event.initialized p mode])
      | Except.error m =>
        (agent_service, [Event.errorEvent ("Failed to initialize agent: " ++ m)])

/-- The `change_project` branch of the websocket loop
(`main.py` lines 181-207). -/
def handle_change_project (agent_service : Option AgentService)
    (project_path : Option String) (buildErr : Option String) :
    Option AgentService × List Event :=
  match agent_service with
  | none => (none, [Event.errorEvent "Agent not initialized"])
  | some svc =>
    match project_path with
    | none => (some svc, [Event.errorEvent "project_path is required"])
    | some p =>
      if p = "" then (some svc, [Event.errorEvent "project_path is required"])
      else
        match change_project svc p buildErr with
        | Except.ok svc2 => (some svc2, [Event.projectChanged p])
        | Except.error em =>
          (some em.2, [Event.errorEvent ("Failed to change project: " ++ em.1)])

/-- The `change_mode` branch of the websocket loop
(`main.py` lines 210-242): a `ValueError` message is sent verbatim, any
other exception is prefixed with `Failed to change mode: `. -/
def handle_change_mode (agent_service : Option AgentService)
    (mode : Option String) (buildErr : Option String) :
    Option AgentService × List Event :=
  match agent_service with
  | none => (none, [Event.errorEvent "Agent not initialized"])
  | some svc =>
    match mode with
    | none => (some svc, [Event.errorEvent "mode is required"])
    | some m =>
      if m = "" then (some svc, [Event.errorEvent "mode is required"])
      else
        match change_mode svc m buildErr with
        | Except.ok svc2 => (some svc2, [Event.modeChanged m])
        | Except.error em =>
          match em.1 with
          | PyError.valueError msg => (some em.2, [Event.errorEvent msg])
          | PyError.otherError msg =>
            (some em.2, [Event.errorEvent ("Failed to change mode: " ++ msg)])

/-- A snapshot whose last (and only) message is an `AIMessage` with string
content `s`, no tool calls, and no todos/files keys. -/
def aiChunk (s : String) : Chunk :=
  { messages := some [LCMessage.ai (some s) []], todos := none, files := none }

/-- Event classifier: `stream-chunk`. -/
def isStreamChunkEvent : Event → Bool
  | Event.streamChunk _ _ => true
  | _ => false

/-- Event classifier: `todos`. -/
def isTodosEvent : Event → Bool
  | Event.todosEvent _ => true
  | _ => false

/-- Event classifier: `files`. -/
def isFilesEvent : Event → Bool
  | Event.filesEvent _ => true
  | _ => false

/-- Event classifier: terminal events (`complete` or `error`). -/
def isTerminalEvent : Event → Bool
  | Event.complete _ _ => true
  | Event.errorEvent _ => true
  | _ => false

/-- Event classifier: a pending `tool-call` event for the given id. -/
def isToolCallFor (x : String) : Event → Bool
  | Event.toolCall _ _ i => i = x
  | _ => false

/-- Event classifier: a completed `tool-result` event for the given id. -/
def isToolResultFor (x : String) : Event → Bool
  | Event.toolResult i _ => i = x
  | _ => false

/-- The `content` (delta) fields of the `stream-chunk` events of a turn, in
emission order. -/
def deltasOf (evs : List Event) : List String :=
  evs.filterMap fun e =>
    match e with
    | Event.streamChunk d _ => some d
    | _ => none

/-- Concatenation of a list of strings, in order. -/
def concatStrs : List String → String
  | [] => ""
  | s :: rest => s ++ concatStrs rest

/-- The content string of a snapshot: the string content of its last
message when that message is an `AIMessage` with string content. -/
def chunkAIContent (c : Chunk) : Option String :=
  match c.messages.bind List.getLast? with
  | some (LCMessage.ai (some s) _) => some s
  | _ => none

/-- Whether the last message of a snapshot is an `AIMessage` whose content
is not a string (the loop then treats the content as `""`). -/
def lastIsNonStringAI (c : Chunk) : Bool :=
  match c.messages.bind List.getLast? with
  | some (LCMessage.ai none _) => true
  | _ => false

/-- `prefixChainFrom prev l` holds when each string of `l` extends its
predecessor (starting from `prev`) as a prefix: the append-only content
condition of the wire protocol. -/
def prefixChainFrom (prev : String) : List String → Bool
  | [] => true
  | s :: rest => prev.data.isPrefixOf s.data && prefixChainFrom s rest

/-- The events the differencer emits while processing snapshot `c`, given
that the snapshots `prev` were processed before it in the same turn (the
events of a turn are the in-order concatenation of these segments). -/
def chunkEvents (prev : List Chunk) (c : Chunk) : List Event :=
  match (runChunks initStreamState prev).2 with
  | Except.ok st =>
    match processChunk st c with
    | Except.ok out => out.1
    | Except.error _ => []
  | Except.error _ => []

/-- A service as it exists after a successful `init` on project `/old` in
fiction mode. -/
def oldSvc : AgentService :=
  { project_path := "/old", author_mode := "fiction",
    agent := some (DeepAgent.mk PromptId.fictionMain "/old") }

/-- A snapshot in which the agent requests tool call `t1` (its last message
is the `AIMessage` carrying the pending tool call). -/
def toolChunkA : Chunk :=
  { messages := some [LCMessage.ai (some "") [ToolCallDict.mk "t1" "write_file" "a"]],
    todos := none, files := none }

/-- The following full-state snapshot: the tool has executed, so the
message list now also holds the tool message for `t1`.  Under
`stream_mode="values"` every later snapshot of the turn keeps containing
this tool message. -/
def toolChunkB : Chunk :=
  { messages := some [LCMessage.ai (some "") [ToolCallDict.mk "t1" "write_file" "a"],
      LCMessage.tool (some "t1") "ok"],
    todos := none, files := none }

/-- A snapshot with content `x`, one todo and one file. -/
def todoChunk1 : Chunk :=
  { messages := some [LCMessage.ai (some "x") []],
    todos := some ["draft chapter 1"], files := some ["ch1.md"] }

/-- The next snapshot: content grew, todos and files unchanged. -/
def todoChunk2 : Chunk :=
  { messages := some [LCMessage.ai (some "xy") []],
    todos := some ["draft chapter 1"], files := some ["ch1.md"] }

/-- A snapshot whose files dict enumerates the key set {a.md, b.md} in the
order `["a.md", "b.md"]`. -/
def fileChunkA : Chunk :=
  { messages := some [LCMessage.ai (some "x") []], todos := none,
    files := some ["a.md", "b.md"] }

/-- The next snapshot: the same file-name set, with the dict keys
enumerated in the other order. -/
def fileChunkB : Chunk :=
  { messages := some [LCMessage.ai (some "x") []], todos := none,
    files := some ["b.md", "a.md"] }

/-- Auxiliary: Python `s[0:]` is `s` itself. -/
theorem pySlice_zero (s : String) : pySlice s 0 = s := rfl

/-- C5: the claim asserts that `init` with a mode outside
{fiction, non-fiction, academic} fails with an `InvalidMode` error and
constructs no agent handle.  Counterexample: `init` with mode `poetry`
(not an available mode) succeeds — the handler validates nothing, an agent
handle is constructed (with the fiction prompt as silent fallback) and
`initialized` is emitted echoing mode `poetry`. -/
theorem c5_init_invalid_mode_counterexample :
    handle_init none (some "/projects/demo") (some "poetry") none =
      (some { project_path := "/projects/demo", author_mode := "poetry",
              agent := some (DeepAgent.mk PromptId.fictionMain "/projects/demo") },
       [Event.initialized "/projects/demo" "poetry"]) ∧
    "poetry" ∉ get_available_modes := by
  decide

/-- C5 (amended): `init` performs no mode validation.  For every nonempty
project path and every mode string (valid or not), a fresh agent service is
constructed — its main prompt looked up in `MAIN_AGENT_TEMPLATES` with the
fiction template as default — the session becomes ready, and `initialized`
is emitted with the given projectPath and mode. -/
theorem c5_init_accepts_any_mode (project_path mode : String)
    (h : project_path ≠ "") :
    handle_init none (some project_path) (some mode) none =
      (some { project_path := resolvePath project_path, author_mode := mode,
              agent := some (DeepAgent.mk (get_main_agent_prompt mode) (resolvePath project_path)) },
       [Event.initialized project_path mode]) := by
  simp [handle_init, AgentService.create, initialize_agent, h]

/-- Witness for `c5_init_accepts_any_mode` at the unrecognized mode
`poetry`. -/
theorem c5_init_accepts_any_mode_witness :
    handle_init none (some "/projects/demo2") (some "poetry") none =
      (some { project_path := resolvePath "/projects/demo2", author_mode := "poetry",
              agent := some (DeepAgent.mk (get_main_agent_prompt "poetry") (resolvePath "/projects/demo2")) },
       [Event.initialized "/projects/demo2" "poetry"]) :=
  c5_init_accepts_any_mode "/projects/demo2" "poetry" (by decide)

/-- C8: the claim asserts that an `init` received while a service already
exists fails with `AlreadyInitialized` and keeps the existing handle.
Counterexample: a second `init` on an initialized session succeeds, emits
`initialized`, and replaces the stored service with a fresh one. -/
theorem c8_reinit_replaces_counterexample :
    handle_init (some oldSvc) (some "/new") (some "academic") none =
      (some { project_path := "/new", author_mode := "academic",
              agent := some (DeepAgent.mk PromptId.academicMain "/new") },
       [Event.initialized "/new" "academic"]) ∧
    (handle_init (some oldSvc) (some "/new") (some "academic") none).1 ≠ some oldSvc := by
  decide

/-- C8 (amended): an `init` received when a service already exists is
handled exactly like a fresh `init`: no `AlreadyInitialized` error exists;
a new agent service is built from the frame and replaces the existing
handle (the result does not depend on the old service), and `initialized`
is emitted. -/
theorem c8_reinit_accepted (old : AgentService) (p m : String) (h : p ≠ "") :
    handle_init (some old) (some p) (some m) none =
      (some { project_path := resolvePath p, author_mode := m,
              agent := some (DeepAgent.mk (get_main_agent_prompt m) (resolvePath p)) },
       [Event.initialized p m]) := by
  simp [handle_init, AgentService.create, initialize_agent, h]

/-- Witness for `c8_reinit_accepted`: re-initializing the `/old` fiction
session onto `/other` in non-fiction mode. -/
theorem c8_reinit_accepted_witness :
    handle_init (some oldSvc) (some "/other") (some "non-fiction") none =
      (some { project_path := resolvePath "/other", author_mode := "non-fiction",
              agent := some (DeepAgent.mk (get_main_agent_prompt "non-fiction") (resolvePath "/other")) },
       [Event.initialized "/other" "non-fiction"]) :=
  c8_reinit_accepted oldSvc "/other" "non-fiction" (by decide)

/-- C6: the claim asserts that when the agent rebuild of `change_project`
raises, the session keeps its previous `projectPath`.  Counterexample: on a
failed change from `/old` to `/new`, a single error event is sent and the
agent handle is the old one, but `project_path` has already been mutated to
`/new` — it does not retain its previous value. -/
theorem c6_change_project_failure_counterexample :
    handle_change_project (some oldSvc) (some "/new") (some "construction failed") =
      (some { project_path := "/new", author_mode := "fiction",
              agent := some (DeepAgent.mk PromptId.fictionMain "/old") },
       [Event.errorEvent "Failed to change project: construction failed"]) ∧
    (handle_change_project (some oldSvc) (some "/new") (some "construction failed")).1.map
        AgentService.project_path ≠ some oldSvc.project_path := by
  decide

/-- C6 (amended): when the agent rebuild of `change_project` raises, a
single `error` event is reported and the handler returns normally (the
session survives, the connection is not closed) with the agent handle and
mode unchanged — but `project_path` is assigned the resolved new path
before the rebuild, so it does not retain its previous value. -/
theorem c6_change_project_failure (svc : AgentService) (p m : String)
    (hp : p ≠ "") :
    handle_change_project (some svc) (some p) (some m) =
      (some { svc with project_path := resolvePath p },
       [Event.errorEvent ("Failed to change project: " ++ m)]) := by
  simp [handle_change_project, change_project, initialize_agent, hp]

/-- Witness for `c6_change_project_failure` on the `/old` fiction session. -/
theorem c6_change_project_failure_witness :
    handle_change_project (some oldSvc) (some "/elsewhere") (some "disk error") =
      (some { oldSvc with project_path := resolvePath "/elsewhere" },
       [Event.errorEvent ("Failed to change project: " ++ "disk error")]) :=
  c6_change_project_failure oldSvc "/elsewhere" "disk error" (by decide)

/-- C7: a `change_mode` command whose mode is not a recognized mode leaves
the session exactly as it was — same service object, hence same
`author_mode` and same agent handle, still ready — and sends a single
`error` event whose text names the invalid mode (for the empty string the
earlier `mode is required` guard fires instead; the empty string occurs in
that message trivially). -/
theorem c7_change_mode_invalid (svc : AgentService) (m : String)
    (buildErr : Option String) (h : m ∉ get_available_modes) :
    handle_change_mode (some svc) (some m) buildErr =
      (some svc,
       [Event.errorEvent (if m = "" then "mode is required"
          else "Invalid mode " ++ m ++ availableModesText)]) := by
  by_cases hm : m = ""
  · subst hm
    simp [handle_change_mode]
  · simp [handle_change_mode, change_mode, hm, h]

/-- Witness for `c7_change_mode_invalid` at the unrecognized mode
`poetry`. -/
theorem c7_change_mode_invalid_witness :
    handle_change_mode (some oldSvc) (some "poetry") none =
      (some oldSvc,
       [Event.errorEvent (if "poetry" = "" then "mode is required"
          else "Invalid mode " ++ "poetry" ++ availableModesText)]) :=
  c7_change_mode_invalid oldSvc "poetry" none (by decide)

/-- C2: the claim asserts that on a non-append-only snapshot the entire new
content is emitted as the delta; in particular for contents
`["abc", "ab"]` the second event should be `stream-chunk` with delta `ab`.
Counterexample: the run on `["abc", "ab"]` emits no second `stream-chunk`
at all — the Python slice `"ab"[3:]` is empty and the empty-delta guard
suppresses the event — so the second (and last) event is `complete`. -/
theorem c2_nonprefix_counterexample :
    stream_response [aiChunk "abc", aiChunk "ab"] none =
      [Event.streamChunk "abc" "abc",
       Event.complete "Agent finished processing" "ab"] ∧
    Event.streamChunk "ab" "ab" ∉ stream_response [aiChunk "abc", aiChunk "ab"] none := by
  decide

/-- C2 (amended): when the second snapshot's content does not extend the
first one as a prefix, the turn does not crash — it still ends in a single
`complete` event — and the delta emitted for the violating snapshot is the
character-drop `content[len(previous):]`, suppressed entirely when empty
(in particular whenever the new content is no longer than the previous
one); the entire new content is not re-emitted. -/
theorem c2_nonprefix_behavior (s1 s2 : String) (h1 : s1 ≠ "") (h2 : s2 ≠ s1)
    (h3 : s1.data.isPrefixOf s2.data = false) :
    stream_response [aiChunk s1, aiChunk s2] none =
      [Event.streamChunk s1 s1] ++
      (if pySlice s2 s1.length ≠ "" then
        [Event.streamChunk (pySlice s2 s1.length) s2] else []) ++
      [Event.complete "Agent finished processing" s2] := by
  have hlen : String.length "" = 0 := rfl
  simp only [stream_response, runChunks, processChunk, processChunkParts,
    aiChunk, contentAndToolCallsPart, todosPart, filesPart,
    emitPendingToolCalls, toolResultEvents, initStreamState, List.getLast?,
    Option.bind, Option.getD, hlen, pySlice_zero]
  simp [h1, h2, pySlice_zero, emitPendingToolCalls]

/-- Witness for `c2_nonprefix_behavior` at the spec's violating sequence
`["abc", "ab"]`. -/
theorem c2_nonprefix_behavior_witness :
    stream_response [aiChunk "abc", aiChunk "ab"] none =
      [Event.streamChunk "abc" "abc"] ++
      (if pySlice "ab" (String.length "abc") ≠ "" then
        [Event.streamChunk (pySlice "ab" (String.length "abc")) "ab"] else []) ++
      [Event.complete "Agent finished processing" "ab"] :=
  c2_nonprefix_behavior "abc" "ab" (by decide) (by decide) (by decide)

/-- Every event of the tool-call dedup loop is a pending `tool-call` event
carrying the fields of one of the scanned tool-call dicts. -/
theorem mem_emitPendingToolCalls (e : Event) :
    ∀ (tcs cur : List ToolCallDict), e ∈ (emitPendingToolCalls cur tcs).1 →
      ∃ tc : ToolCallDict, e = Event.toolCall tc.name tc.args tc.id := by
  intro tcs
  induction tcs with
  | nil => intro cur he; simp [emitPendingToolCalls] at he
  | cons tc rest ih =>
    intro cur he
    by_cases hc : (cur.map ToolCallDict.id).contains tc.id
    · rw [emitPendingToolCalls, if_pos hc] at he
      exact ih cur he
    · rw [emitPendingToolCalls, if_neg hc] at he
      rcases List.mem_cons.mp he with h | h
      · exact ⟨tc, h⟩
      · exact ih (cur ++ [tc]) h

/-- Every event of the tool-result scan is a completed `tool-result` event
with a nonempty id. -/
theorem mem_toolResultEvents (e : Event) :
    ∀ ms : List LCMessage, e ∈ toolResultEvents ms →
      ∃ i r, e = Event.toolResult i r ∧ i ≠ "" := by
  intro ms
  induction ms with
  | nil => intro he; simp [toolResultEvents] at he
  | cons m rest ih =>
    intro he
    rcases m with ⟨content, tcs⟩ | ⟨tid, content⟩ | _
    · exact ih (by simpa [toolResultEvents] using he)
    · rcases tid with _ | id
      · exact ih (by simpa [toolResultEvents] using he)
      · by_cases hid : id = ""
        · exact ih (by simpa [toolResultEvents, hid] using he)
        · rw [toolResultEvents, if_neg hid] at he
          rcases List.mem_cons.mp he with h | h
          · exact ⟨id, content, h, hid⟩
          · exact ih h
    · exact ih (by simpa [toolResultEvents] using he)

/-- The content/tool-call step does not touch the todos and files
accumulators. -/
theorem contentAndToolCallsPart_preserves (st : StreamState)
    (mo : Option LCMessage) :
    ((contentAndToolCallsPart st mo).2).last_todos = st.last_todos ∧
    ((contentAndToolCallsPart st mo).2).last_files = st.last_files := by
  rcases mo with _ | m
  · simp [contentAndToolCallsPart]
  rcases m with ⟨content, tcs⟩ | ⟨tid, c⟩ | _
  · by_cases hc : content.getD "" ≠ st.last_ai_content <;>
      simp [contentAndToolCallsPart, hc]
  · simp [contentAndToolCallsPart]
  · simp [contentAndToolCallsPart]

/-- The todos step does not touch the files accumulator. -/
theorem todosPart_preserves_files (st : StreamState)
    (td : Option (List String)) :
    ((todosPart st td).2).last_files = st.last_files := by
  rcases td with _ | ts
  · simp [todosPart]
  · by_cases h : ts ≠ st.last_todos <;> simp [todosPart, h]

/-- Every event of the content/tool-call step is a `stream-chunk` with a
nonempty delta or a pending `tool-call`. -/
theorem mem_contentAndToolCallsPart (st : StreamState) (mo : Option LCMessage)
    (e : Event) (he : e ∈ (contentAndToolCallsPart st mo).1) :
    (∃ d f, e = Event.streamChunk d f ∧ d ≠ "") ∨
    (∃ tc : ToolCallDict, e = Event.toolCall tc.name tc.args tc.id) := by
  rcases mo with _ | m
  · simp [contentAndToolCallsPart] at he
  rcases m with ⟨content, tcs⟩ | ⟨tid, c⟩ | _
  · by_cases hc : content.getD "" ≠ st.last_ai_content
    · simp only [contentAndToolCallsPart, if_pos hc] at he
      by_cases hd : pySlice (content.getD "") st.last_ai_content.length ≠ ""
      · simp only [if_pos hd] at he
        rcases List.mem_append.mp he with h | h
        · exact Or.inl ⟨_, _, List.mem_singleton.mp h, hd⟩
        · exact Or.inr (mem_emitPendingToolCalls e tcs _ h)
      · simp only [if_neg hd, List.nil_append] at he
        exact Or.inr (mem_emitPendingToolCalls e tcs _ he)
    · simp only [contentAndToolCallsPart, if_neg hc, List.nil_append] at he
      exact Or.inr (mem_emitPendingToolCalls e tcs _ he)
  · simp [contentAndToolCallsPart] at he
  · simp [contentAndToolCallsPart] at he

/-- `processChunk` succeeds exactly on chunks whose messages list is not
present-but-empty, and then computes `processChunkParts`. -/
theorem processChunk_ok_inv (st : StreamState) (c : Chunk)
    (out : List Event × StreamState)
    (h : processChunk st c = Except.ok out) :
    out = processChunkParts st c := by
  obtain ⟨mo, td, fl⟩ := c
  rcases mo with _ | ms
  · exact (Except.ok.inj h).symm
  · rcases ms with _ | ⟨m, ms'⟩
    · exact absurd h (by simp [processChunk])
    · exact (Except.ok.inj h).symm

/-- Shape of the events one loop iteration can emit: a nonempty-delta
`stream-chunk`, a pending `tool-call`, a completed `tool-result`, a `todos`
event for a present todos value differing from the accumulator, or a
`files` event for a present files value differing from the accumulator. -/
theorem mem_processChunkParts (st : StreamState) (c : Chunk) (e : Event)
    (he : e ∈ (processChunkParts st c).1) :
    (∃ d f, e = Event.streamChunk d f ∧ d ≠ "") ∨
    (∃ tc : ToolCallDict, e = Event.toolCall tc.name tc.args tc.id) ∨
    (∃ i r, e = Event.toolResult i r ∧ i ≠ "") ∨
    (∃ ts, e = Event.todosEvent ts ∧ c.todos = some ts ∧ ts ≠ st.last_todos) ∨
    (∃ fs, e = Event.filesEvent fs ∧ c.files = some fs ∧ fs ≠ st.last_files) := by
  obtain ⟨mo, td, fl⟩ := c
  simp only [processChunkParts, List.append_assoc, List.mem_append] at he
  rcases he with h1 | h2 | h3 | h4
  · exact (mem_contentAndToolCallsPart st _ e h1).elim
      (fun hx => Or.inl hx) (fun hx => Or.inr (Or.inl hx))
  · rcases mo with _ | ms
    · simp at h2
    · exact Or.inr (Or.inr (Or.inl (mem_toolResultEvents e ms h2)))
  · rcases td with _ | ts
    · simp [todosPart] at h3
    · by_cases hts : ts ≠ (contentAndToolCallsPart st (mo.bind List.getLast?)).2.last_todos
      · rw [todosPart, if_pos hts] at h3
        refine Or.inr (Or.inr (Or.inr (Or.inl ⟨ts, List.mem_singleton.mp h3, rfl, ?_⟩)))
        rw [(contentAndToolCallsPart_preserves st _).1] at hts
        simpa using hts
      · rw [todosPart, if_neg hts] at h3
        simp at h3
  · rcases fl with _ | fs
    · simp [filesPart] at h4
    · by_cases hfs : fs ≠ (todosPart (contentAndToolCallsPart st (mo.bind List.getLast?)).2 td).2.last_files
      · rw [filesPart, if_pos hfs] at h4
        refine Or.inr (Or.inr (Or.inr (Or.inr ⟨fs, List.mem_singleton.mp h4, rfl, ?_⟩)))
        rw [todosPart_preserves_files, (contentAndToolCallsPart_preserves st _).2] at hfs
        simpa using hfs
      · rw [filesPart, if_neg hfs] at h4
        simp at h4

/-- No event emitted by loop iterations is terminal: `complete` and
`error` come only from the epilogue of `stream_response`. -/
theorem runChunks_no_terminal (chunks : List Chunk) :
    ∀ st : StreamState, ∀ e ∈ (runChunks st chunks).1,
      isTerminalEvent e = false := by
  induction chunks with
  | nil => intro st e he; simp [runChunks] at he
  | cons c cs ih =>
    intro st e he
    rw [runChunks] at he
    rcases hp : processChunk st c with m | out
    · rw [hp] at he; simp at he
    · rw [hp] at he
      simp only [List.mem_append] at he
      rcases he with h | h
      · rw [processChunk_ok_inv st c out hp] at h
        rcases mem_processChunkParts st c e h with
          ⟨d, f, rfl, _⟩ | ⟨tc, rfl⟩ | ⟨i, r, rfl, _⟩ | ⟨ts, rfl, _, _⟩ | ⟨fs, rfl, _, _⟩ <;> rfl
      · exact ih out.2 e h

/-- Every `stream-chunk` event emitted by loop iterations has a nonempty
delta. -/
theorem runChunks_streamChunk_ne (chunks : List Chunk) :
    ∀ st : StreamState, ∀ d f : String,
      Event.streamChunk d f ∈ (runChunks st chunks).1 → d ≠ "" := by
  induction chunks with
  | nil => intro st d f he; simp [runChunks] at he
  | cons c cs ih =>
    intro st d f he
    rw [runChunks] at he
    rcases hp : processChunk st c with m | out
    · rw [hp] at he; simp at he
    · rw [hp] at he
      simp only [List.mem_append] at he
      rcases he with h | h
      · rw [processChunk_ok_inv st c out hp] at h
        rcases mem_processChunkParts st c _ h with
          ⟨d', f', hdf, hne⟩ | ⟨tc, htc⟩ | ⟨i, r, hir, _⟩ | ⟨ts, hts, _, _⟩ | ⟨fs, hfs, _, _⟩
        · obtain ⟨rfl, rfl⟩ : d = d' ∧ f = f' := by
            injection hdf with h1 h2; exact ⟨h1, h2⟩
          exact hne
        · exact absurd htc (by simp)
        · exact absurd hir (by simp)
        · exact absurd hts (by simp)
        · exact absurd hfs (by simp)
      · exact ih out.2 d f h

/-- C4: every turn of `stream_response`, run to exhaustion, yields exactly
one terminal event — a final `complete` on success or a final `error` when
the source (or the loop body) raised — preceded only by non-terminal
events; in particular no `complete` ever follows an `error`. -/
theorem c4_exactly_one_terminal (chunks : List Chunk) (err : Option String) :
    ∃ pre t, stream_response chunks err = pre ++ [t] ∧
      isTerminalEvent t = true ∧
      pre.all (fun e => !isTerminalEvent e) = true ∧
      (stream_response chunks err).countP (fun e => isTerminalEvent e) = 1 := by
  rcases hr : runChunks initStreamState chunks with ⟨evs, r⟩
  have hpre : evs.all (fun e => !isTerminalEvent e) = true := by
    rw [List.all_eq_true]
    intro e he
    have := runChunks_no_terminal chunks initStreamState e (by rw [hr]; exact he)
    simp [this]
  have hcount : evs.countP (fun e => isTerminalEvent e) = 0 := by
    rw [List.countP_eq_zero]
    intro e he
    have := runChunks_no_terminal chunks initStreamState e (by rw [hr]; exact he)
    simp [this]
  unfold stream_response
  rw [hr]
  rcases r with m | st
  · exact ⟨evs, Event.errorEvent m, rfl, rfl, hpre,
      by rw [List.countP_append, hcount]; rfl⟩
  · rcases err with _ | m
    · exact ⟨evs, Event.complete "Agent finished processing" st.last_ai_content,
        rfl, rfl, hpre, by rw [List.countP_append, hcount]; rfl⟩
    · exact ⟨evs, Event.errorEvent m, rfl, rfl, hpre,
        by rw [List.countP_append, hcount]; rfl⟩

/-- C10: every `stream-chunk` event emitted by `stream_response` carries a
nonempty delta, for every snapshot sequence (append-only or not) and
every turn outcome. -/
theorem c10_deltas_nonempty (chunks : List Chunk) (err : Option String)
    (d f : String) (h : Event.streamChunk d f ∈ stream_response chunks err) :
    d ≠ "" := by
  unfold stream_response at h
  rcases hr : runChunks initStreamState chunks with ⟨evs, r⟩
  rw [hr] at h
  have hm : Event.streamChunk d f ∈ evs := by
    rcases r with m | st
    · exact (List.mem_append.mp h).resolve_right (by simp)
    · rcases err with _ | m
      · exact (List.mem_append.mp h).resolve_right (by simp)
      · exact (List.mem_append.mp h).resolve_right (by simp)
  exact runChunks_streamChunk_ne chunks initStreamState d f (by rw [hr]; exact hm)

/-- Witness for `c10_deltas_nonempty`: the one-snapshot turn with content
`Hi` emits `stream-chunk` with delta `Hi`, which is nonempty. -/
theorem c10_deltas_nonempty_witness : ("Hi" : String) ≠ "" :=
  c10_deltas_nonempty [aiChunk "Hi"] none "Hi" "Hi" (by decide)

/-- C3: the claim asserts at most one completed `tool-result` per id.
Counterexample: under `stream_mode="values"` the tool message for `t1`
stays in the messages list of every later snapshot, and the tool-result
scan has no dedup, so the turn `[toolChunkA, toolChunkB, toolChunkB]`
emits the completed event for `t1` twice. -/
theorem c3_duplicate_tool_result_counterexample :
    stream_response [toolChunkA, toolChunkB, toolChunkB] none =
      [Event.toolCall "write_file" "a" "t1",
       Event.toolResult "t1" "ok", Event.toolResult "t1" "ok",
       Event.complete "Agent finished processing" ""] ∧
    ¬ (stream_response [toolChunkA, toolChunkB, toolChunkB] none).countP
        (isToolResultFor "t1") ≤ 1 := by
  decide

/-- The tool calls of the last message, when it is an `AIMessage`. -/
def lastToolCalls : Option LCMessage → List ToolCallDict
  | some (LCMessage.ai _ tcs) => tcs
  | _ => []

/-- The dedup loop only ever appends to `current_tool_calls`. -/
theorem emitPendingToolCalls_ids_subset (x : String) :
    ∀ (tcs cur : List ToolCallDict),
      x ∈ cur.map ToolCallDict.id →
        x ∈ (emitPendingToolCalls cur tcs).2.map ToolCallDict.id := by
  intro tcs
  induction tcs with
  | nil => intro cur hx; simpa [emitPendingToolCalls] using hx
  | cons tc rest ih =>
    intro cur hx
    by_cases hc : (cur.map ToolCallDict.id).contains tc.id
    · rw [emitPendingToolCalls, if_pos hc]
      exact ih cur hx
    · rw [emitPendingToolCalls, if_neg hc]
      exact ih (cur ++ [tc]) (by simpa using Or.inl hx)

/-- The dedup loop emits the pending event for id `x` exactly once when `x`
is newly seen in this scan, and never otherwise. -/
theorem emitPendingToolCalls_countP (x : String) :
    ∀ (tcs cur : List ToolCallDict),
      (emitPendingToolCalls cur tcs).1.countP (isToolCallFor x) =
        (if x ∈ (emitPendingToolCalls cur tcs).2.map ToolCallDict.id ∧
            x ∉ cur.map ToolCallDict.id then 1 else 0) := by
  intro tcs
  induction tcs with
  | nil =>
    intro cur
    simp only [emitPendingToolCalls, List.countP_nil]
    by_cases hx : x ∈ cur.map ToolCallDict.id <;> simp [hx]
  | cons tc rest ih =>
    intro cur
    by_cases hc : (cur.map ToolCallDict.id).contains tc.id
    · rw [emitPendingToolCalls, if_pos hc]
      exact ih cur
    · rw [emitPendingToolCalls, if_neg hc]
      have hnotc : tc.id ∉ cur.map ToolCallDict.id := fun hmem =>
        hc (List.elem_eq_true_of_mem hmem)
      by_cases hx : x = tc.id
      · have hhead : isToolCallFor x (Event.toolCall tc.name tc.args tc.id) = true := by
          simp [isToolCallFor, hx]
        have htail : (emitPendingToolCalls (cur ++ [tc]) rest).1.countP (isToolCallFor x) = 0 := by
          have hxm : x ∈ (cur ++ [tc]).map ToolCallDict.id := by simp [hx]
          have hnc : ¬ (x ∈ (emitPendingToolCalls (cur ++ [tc]) rest).2.map ToolCallDict.id ∧
              x ∉ (cur ++ [tc]).map ToolCallDict.id) := fun hcond => hcond.2 hxm
          rw [ih (cur ++ [tc]), if_neg hnc]
        have hin : x ∈ (emitPendingToolCalls (cur ++ [tc]) rest).2.map ToolCallDict.id :=
          emitPendingToolCalls_ids_subset x rest (cur ++ [tc]) (by simp [hx])
        have hcond : x ∈ (emitPendingToolCalls (cur ++ [tc]) rest).2.map ToolCallDict.id ∧
            x ∉ cur.map ToolCallDict.id := ⟨hin, by rw [hx]; exact hnotc⟩
        rw [List.countP_cons, htail, hhead, if_pos hcond]
        simp
      · have hhead : isToolCallFor x (Event.toolCall tc.name tc.args tc.id) = false := by
          simp only [isToolCallFor, decide_eq_false_iff_not]
          exact fun h => hx h.symm
        have hmem2 : x ∈ (cur ++ [tc]).map ToolCallDict.id ↔
            x ∈ cur.map ToolCallDict.id := by
          constructor
          · intro h
            rcases (by simpa using h : x ∈ cur.map ToolCallDict.id ∨ x = tc.id) with h' | h'
            · exact h'
            · exact absurd h' hx
          · intro h
            simp [h]
        rw [List.countP_cons, hhead, ih (cur ++ [tc])]
        have hiff : (x ∈ (emitPendingToolCalls (cur ++ [tc]) rest).2.map ToolCallDict.id ∧
              x ∉ (cur ++ [tc]).map ToolCallDict.id) ↔
            (x ∈ (emitPendingToolCalls (cur ++ [tc]) rest).2.map ToolCallDict.id ∧
              x ∉ cur.map ToolCallDict.id) :=
          and_congr_right fun _ => not_congr hmem2
        rw [if_congr hiff rfl rfl]
        simp

/-- The todos step does not touch `current_tool_calls`. -/
theorem todosPart_preserves_current (st : StreamState)
    (td : Option (List String)) :
    ((todosPart st td).2).current_tool_calls = st.current_tool_calls := by
  rcases td with _ | ts
  · simp [todosPart]
  · by_cases h : ts ≠ st.last_todos <;> simp [todosPart, h]

/-- The files step does not touch `current_tool_calls`. -/
theorem filesPart_preserves_current (st : StreamState)
    (fl : Option (List String)) :
    ((filesPart st fl).2).current_tool_calls = st.current_tool_calls := by
  rcases fl with _ | fs
  · simp [filesPart]
  · by_cases h : fs ≠ st.last_files <;> simp [filesPart, h]

/-- After step 1, `current_tool_calls` is exactly what the dedup loop
returns on the tool calls of the last message. -/
theorem contentAndToolCallsPart_current (st : StreamState)
    (mo : Option LCMessage) :
    ((contentAndToolCallsPart st mo).2).current_tool_calls =
      (emitPendingToolCalls st.current_tool_calls (lastToolCalls mo)).2 := by
  rcases mo with _ | m
  · simp [contentAndToolCallsPart, lastToolCalls, emitPendingToolCalls]
  rcases m with ⟨content, tcs⟩ | ⟨tid, c⟩ | _
  · by_cases hc : content.getD "" ≠ st.last_ai_content <;>
      simp [contentAndToolCallsPart, lastToolCalls, hc]
  · simp [contentAndToolCallsPart, lastToolCalls, emitPendingToolCalls]
  · simp [contentAndToolCallsPart, lastToolCalls, emitPendingToolCalls]

/-- Step 1 emits exactly the pending tool-call events of the dedup loop,
as far as counting pending events for an id goes. -/
theorem contentAndToolCallsPart_countP (x : String) (st : StreamState)
    (mo : Option LCMessage) :
    (contentAndToolCallsPart st mo).1.countP (isToolCallFor x) =
      (emitPendingToolCalls st.current_tool_calls (lastToolCalls mo)).1.countP
        (isToolCallFor x) := by
  rcases mo with _ | m
  · simp [contentAndToolCallsPart, lastToolCalls, emitPendingToolCalls]
  rcases m with ⟨content, tcs⟩ | ⟨tid, c⟩ | _
  · by_cases hc : content.getD "" ≠ st.last_ai_content
    · simp only [contentAndToolCallsPart, if_pos hc, lastToolCalls,
        List.countP_append]
      by_cases hd : pySlice (content.getD "") st.last_ai_content.length ≠ "" <;>
        simp [hd, isToolCallFor]
    · simp [contentAndToolCallsPart, hc, lastToolCalls]
  · simp [contentAndToolCallsPart, lastToolCalls, emitPendingToolCalls]
  · simp [contentAndToolCallsPart, lastToolCalls, emitPendingToolCalls]

/-- `current_tool_calls` after one loop iteration is what the dedup loop
returns on the last message's tool calls. -/
theorem processChunkParts_current (st : StreamState) (c : Chunk) :
    ((processChunkParts st c).2).current_tool_calls =
      (emitPendingToolCalls st.current_tool_calls
        (lastToolCalls (c.messages.bind List.getLast?))).2 := by
  obtain ⟨mo, td, fl⟩ := c
  simp only [processChunkParts]
  rw [filesPart_preserves_current, todosPart_preserves_current,
    contentAndToolCallsPart_current]

/-- Pending tool-call events for id `x` in one loop iteration: exactly one
when `x` enters `current_tool_calls` at this iteration, none otherwise. -/
theorem processChunkParts_countP (x : String) (st : StreamState) (c : Chunk) :
    (processChunkParts st c).1.countP (isToolCallFor x) =
      (if x ∈ ((processChunkParts st c).2).current_tool_calls.map ToolCallDict.id ∧
          x ∉ st.current_tool_calls.map ToolCallDict.id then 1 else 0) := by
  have h2 : ∀ ms : List LCMessage,
      (toolResultEvents ms).countP (isToolCallFor x) = 0 := by
    intro ms
    rw [List.countP_eq_zero]
    intro e he
    obtain ⟨i, r, rfl, _⟩ := mem_toolResultEvents e ms he
    simp [isToolCallFor]
  have h3 : ∀ st' td, ((todosPart st' td).1).countP (isToolCallFor x) = 0 := by
    intro st' td
    rcases td with _ | ts
    · simp [todosPart]
    · by_cases h : ts ≠ st'.last_todos <;> simp [todosPart, h, isToolCallFor]
  have h4 : ∀ st' fl, ((filesPart st' fl).1).countP (isToolCallFor x) = 0 := by
    intro st' fl
    rcases fl with _ | fs
    · simp [filesPart]
    · by_cases h : fs ≠ st'.last_files <;> simp [filesPart, h, isToolCallFor]
  obtain ⟨mo, td, fl⟩ := c
  rw [processChunkParts_current]
  simp only [processChunkParts, List.countP_append]
  rw [h3, h4, contentAndToolCallsPart_countP, emitPendingToolCalls_countP]
  rcases mo with _ | ms
  · simp
  · rw [h2]
    simp

/-- Once an id is registered in `current_tool_calls`, no later iteration of
the same turn emits a pending event for it. -/
theorem runChunks_countP_zero (x : String) (chunks : List Chunk) :
    ∀ st : StreamState, x ∈ st.current_tool_calls.map ToolCallDict.id →
      (runChunks st chunks).1.countP (isToolCallFor x) = 0 := by
  induction chunks with
  | nil => intro st hx; simp [runChunks]
  | cons c cs ih =>
    intro st hx
    rw [runChunks]
    rcases hp : processChunk st c with m | out
    · simp
    · have hout := processChunk_ok_inv st c out hp
      subst hout
      dsimp only
      rw [List.countP_append, processChunkParts_countP,
        if_neg (fun hcond => hcond.2 hx)]
      have hx2 : x ∈ (processChunkParts st c).2.current_tool_calls.map
          ToolCallDict.id := by
        rw [processChunkParts_current]
        exact emitPendingToolCalls_ids_subset x _ _ hx
      rw [ih _ hx2]

/-- At most one pending tool-call event per id is emitted by the loop
iterations of one turn. -/
theorem runChunks_countP_le_one (x : String) (chunks : List Chunk) :
    ∀ st : StreamState,
      (runChunks st chunks).1.countP (isToolCallFor x) ≤ 1 := by
  induction chunks with
  | nil => intro st; simp [runChunks]
  | cons c cs ih =>
    intro st
    rw [runChunks]
    rcases hp : processChunk st c with m | out
    · simp
    · have hout := processChunk_ok_inv st c out hp
      subst hout
      dsimp only
      rw [List.countP_append, processChunkParts_countP]
      by_cases hcond : x ∈ (processChunkParts st c).2.current_tool_calls.map
            ToolCallDict.id ∧
          x ∉ st.current_tool_calls.map ToolCallDict.id
      · rw [if_pos hcond, runChunks_countP_zero x cs _ hcond.1]
      · rw [if_neg hcond]
        simpa using ih (processChunkParts st c).2

/-- C3 (amended): the pending half of the claim holds — within one turn at
most one pending `tool-call` event is emitted per tool-call id (the dedup
via `current_tool_calls`); completed `tool-result` events, however, are
not deduplicated: one is emitted for every tool message occurrence in
every snapshot, so an id may receive several completed events, possibly
without or before its pending event. -/
theorem c3_pending_at_most_once (chunks : List Chunk) (err : Option String)
    (x : String) :
    (stream_response chunks err).countP (isToolCallFor x) ≤ 1 := by
  unfold stream_response
  rcases hr : runChunks initStreamState chunks with ⟨evs, r⟩
  have hevs : evs.countP (isToolCallFor x) ≤ 1 := by
    have h := runChunks_countP_le_one x chunks initStreamState
    rw [hr] at h
    exact h
  rcases r with m | st
  · rw [List.countP_append]
    have h0 : ([Event.errorEvent m]).countP (isToolCallFor x) = 0 := rfl
    omega
  · rcases err with _ | m
    · rw [List.countP_append]
      have h0 : ([Event.complete "Agent finished processing"
        st.last_ai_content]).countP (isToolCallFor x) = 0 := rfl
      omega
    · rw [List.countP_append]
      have h0 : ([Event.errorEvent m]).countP (isToolCallFor x) = 0 := rfl
      omega

/-- Splitting a run of the loop at a list boundary. -/
theorem runChunks_append (l1 l2 : List Chunk) :
    ∀ st : StreamState,
      runChunks st (l1 ++ l2) =
        ((runChunks st l1).1 ++
          (match (runChunks st l1).2 with
           | Except.ok st1 => (runChunks st1 l2).1
           | Except.error _ => []),
         (match (runChunks st l1).2 with
          | Except.ok st1 => (runChunks st1 l2).2
          | Except.error m => Except.error m)) := by
  induction l1 with
  | nil => intro st; simp [runChunks]
  | cons c cs ih =>
    intro st
    rw [List.cons_append, runChunks, runChunks]
    rcases hp : processChunk st c with m | out
    · rfl
    · dsimp only
      rw [ih out.2]
      rcases h2 : (runChunks out.2 cs).2 with m2 | st2 <;>
        simp [List.append_assoc]

/-- The state after running `l ++ [a]` is the state of the loop body on `a`
from the state after `l`. -/
theorem runChunks_snoc_state (l : List Chunk) (a : Chunk)
    (st st1 : StreamState)
    (h : (runChunks st (l ++ [a])).2 = Except.ok st1) :
    ∃ st0 : StreamState, (runChunks st l).2 = Except.ok st0 ∧
      st1 = (processChunkParts st0 a).2 := by
  rw [runChunks_append l [a] st] at h
  rcases hr : (runChunks st l).2 with m | st0
  · rw [hr] at h
    simp at h
  · rw [hr] at h
    dsimp only at h
    rw [runChunks] at h
    rcases hp : processChunk st0 a with m | out
    · rw [hp] at h
      simp at h
    · rw [hp] at h
      dsimp only [runChunks] at h
      refine ⟨st0, rfl, ?_⟩
      have hout := processChunk_ok_inv st0 a out hp
      rw [← hout]
      exact (Except.ok.inj h).symm

/-- The files step does not touch the todos accumulator. -/
theorem filesPart_preserves_todos (st : StreamState)
    (fl : Option (List String)) :
    ((filesPart st fl).2).last_todos = st.last_todos := by
  rcases fl with _ | fs
  · simp [filesPart]
  · by_cases h : fs ≠ st.last_files <;> simp [filesPart, h]

/-- The todos accumulator after the todos step. -/
theorem todosPart_last_todos (st : StreamState) (td : Option (List String)) :
    ((todosPart st td).2).last_todos = td.getD st.last_todos := by
  rcases td with _ | ts
  · simp [todosPart]
  · by_cases h : ts ≠ st.last_todos
    · simp [todosPart, h]
    · simp only [todosPart, if_neg h, Option.getD_some]
      exact (not_not.mp h).symm

/-- The files accumulator after the files step. -/
theorem filesPart_last_files (st : StreamState) (fl : Option (List String)) :
    ((filesPart st fl).2).last_files = fl.getD st.last_files := by
  rcases fl with _ | fs
  · simp [filesPart]
  · by_cases h : fs ≠ st.last_files
    · simp [filesPart, h]
    · simp only [filesPart, if_neg h, Option.getD_some]
      exact (not_not.mp h).symm

/-- The todos accumulator after one loop iteration. -/
theorem processChunkParts_last_todos (st : StreamState) (c : Chunk) :
    ((processChunkParts st c).2).last_todos = c.todos.getD st.last_todos := by
  obtain ⟨mo, td, fl⟩ := c
  simp only [processChunkParts]
  rw [filesPart_preserves_todos, todosPart_last_todos,
    (contentAndToolCallsPart_preserves st _).1]

/-- The files accumulator after one loop iteration. -/
theorem processChunkParts_last_files (st : StreamState) (c : Chunk) :
    ((processChunkParts st c).2).last_files = c.files.getD st.last_files := by
  obtain ⟨mo, td, fl⟩ := c
  simp only [processChunkParts]
  rw [filesPart_last_files, todosPart_preserves_files,
    (contentAndToolCallsPart_preserves st _).2]

/-- The events of a run split as: events of a prefix, then the events of
the next snapshot, then a remainder. -/
theorem runChunks_events_decomp (l1 : List Chunk) (b : Chunk)
    (post : List Chunk) :
    ∃ rest, (runChunks initStreamState (l1 ++ b :: post)).1 =
      (runChunks initStreamState l1).1 ++ chunkEvents l1 b ++ rest := by
  rw [runChunks_append l1 (b :: post) initStreamState]
  unfold chunkEvents
  rcases hr : (runChunks initStreamState l1).2 with m | st1
  · exact ⟨[], by simp⟩
  · dsimp only
    rw [runChunks]
    rcases hp : processChunk st1 b with m | out
    · exact ⟨[], by simp⟩
    · exact ⟨(runChunks out.2 post).1, by simp [List.append_assoc]⟩

/-- A turn's events are the loop events followed by one terminal event. -/
theorem stream_response_decomp (chunks : List Chunk) (err : Option String) :
    ∃ t, stream_response chunks err =
      (runChunks initStreamState chunks).1 ++ [t] ∧
      isTerminalEvent t = true := by
  unfold stream_response
  rcases hr : runChunks initStreamState chunks with ⟨evs, r⟩
  rcases r with m | st
  · exact ⟨Event.errorEvent m, rfl, rfl⟩
  · rcases err with _ | m
    · exact ⟨Event.complete "Agent finished processing" st.last_ai_content,
        rfl, rfl⟩
    · exact ⟨Event.errorEvent m, rfl, rfl⟩

/-- C9: the claim's files half asserts that equal file *sets* of two
consecutive snapshots suppress the `files` event.  Counterexample: the
code compares the ordered key lists (`list(chunk["files"].keys()) !=
last_files`), so for the same key set {a.md, b.md} enumerated in two
different orders — equal as sets, witnessed here by the permutation — a
`files` event is emitted while the second snapshot is processed. -/
theorem c9_files_set_counterexample :
    List.Perm ["a.md", "b.md"] ["b.md", "a.md"] ∧
    fileChunkA.files = some ["a.md", "b.md"] ∧
    fileChunkB.files = some ["b.md", "a.md"] ∧
    chunkEvents [fileChunkA] fileChunkB = [Event.filesEvent ["b.md", "a.md"]] ∧
    stream_response [fileChunkA, fileChunkB] none =
      [Event.streamChunk "x" "x", Event.filesEvent ["a.md", "b.md"],
       Event.filesEvent ["b.md", "a.md"],
       Event.complete "Agent finished processing" "x"] := by
  decide

/-- C9 (amended): within a turn, if two consecutive snapshots carry equal
`todos` values, no `todos` event is emitted while the second one is
processed; for files the comparison is on the *ordered key lists*, not
sets: when the key lists are equal no `files` event is emitted (equal sets
enumerated in different orders do emit one — see the counterexample).  The
first conjunct places `chunkEvents` inside the actual event stream of the
turn (prefix events, then the second snapshot's events, then the rest). -/
theorem c9_noop_suppression (pre post : List Chunk) (a b : Chunk)
    (err : Option String) :
    (∃ tail, stream_response (pre ++ a :: b :: post) err =
      (runChunks initStreamState (pre ++ [a])).1 ++
        chunkEvents (pre ++ [a]) b ++ tail) ∧
    (a.todos = b.todos →
      (chunkEvents (pre ++ [a]) b).all (fun e => !isTodosEvent e) = true) ∧
    (a.files = b.files →
      (chunkEvents (pre ++ [a]) b).all (fun e => !isFilesEvent e) = true) := by
  refine ⟨?_, ?_, ?_⟩
  · obtain ⟨t, hterm, -⟩ := stream_response_decomp (pre ++ a :: b :: post) err
    obtain ⟨rest, hdec⟩ := runChunks_events_decomp (pre ++ [a]) b post
    have hlist : (pre ++ [a]) ++ b :: post = pre ++ a :: b :: post := by simp
    rw [hlist] at hdec
    refine ⟨rest ++ [t], ?_⟩
    rw [hterm, hdec]
    simp [List.append_assoc]
  · intro hab
    rw [List.all_eq_true]
    intro e he
    unfold chunkEvents at he
    rcases hr : (runChunks initStreamState (pre ++ [a])).2 with m | st1
    · rw [hr] at he
      simp at he
    · rw [hr] at he
      dsimp only at he
      rcases hp : processChunk st1 b with m | out
      · rw [hp] at he
        simp at he
      · rw [hp] at he
        dsimp only at he
        rw [processChunk_ok_inv st1 b out hp] at he
        obtain ⟨st0, hst0, hst1⟩ :=
          runChunks_snoc_state pre a initStreamState st1 hr
        have hlt : st1.last_todos = a.todos.getD st0.last_todos := by
          rw [hst1, processChunkParts_last_todos]
        rcases mem_processChunkParts st1 b e he with
          ⟨d, f, rfl, _⟩ | ⟨tc, rfl⟩ | ⟨i, r, rfl, _⟩ |
          ⟨ts, rfl, hbt, hne⟩ | ⟨fs, rfl, hbf, _⟩
        · rfl
        · rfl
        · rfl
        · exfalso
          apply hne
          rw [hlt, hab, hbt]
          rfl
        · rfl
  · intro hab
    rw [List.all_eq_true]
    intro e he
    unfold chunkEvents at he
    rcases hr : (runChunks initStreamState (pre ++ [a])).2 with m | st1
    · rw [hr] at he
      simp at he
    · rw [hr] at he
      dsimp only at he
      rcases hp : processChunk st1 b with m | out
      · rw [hp] at he
        simp at he
      · rw [hp] at he
        dsimp only at he
        rw [processChunk_ok_inv st1 b out hp] at he
        obtain ⟨st0, hst0, hst1⟩ :=
          runChunks_snoc_state pre a initStreamState st1 hr
        have hlf : st1.last_files = a.files.getD st0.last_files := by
          rw [hst1, processChunkParts_last_files]
        rcases mem_processChunkParts st1 b e he with
          ⟨d, f, rfl, _⟩ | ⟨tc, rfl⟩ | ⟨i, r, rfl, _⟩ |
          ⟨ts, rfl, hbt, _⟩ | ⟨fs, rfl, hbf, hne⟩
        · rfl
        · rfl
        · rfl
        · rfl
        · exfalso
          apply hne
          rw [hlf, hab, hbf]
          rfl

/-- Witness for `c9_noop_suppression`: the two-snapshot turn
`[todoChunk1, todoChunk2]` (equal todos, equal files) emits neither a
`todos` nor a `files` event while processing the second snapshot. -/
theorem c9_noop_suppression_witness :
    (chunkEvents [todoChunk1] todoChunk2).all (fun e => !isTodosEvent e) = true ∧
    (chunkEvents [todoChunk1] todoChunk2).all (fun e => !isFilesEvent e) = true :=
  ⟨(c9_noop_suppression [] [] todoChunk1 todoChunk2 none).2.1 rfl,
   (c9_noop_suppression [] [] todoChunk1 todoChunk2 none).2.2 rfl⟩

/-- Python slicing off an exact prefix leaves the remainder. -/
theorem pySlice_append (a t : String) : pySlice (a ++ t) a.length = t := by
  have h : (pySlice (a ++ t) a.length).data = t.data := by
    show ((a ++ t).data.drop a.length) = t.data
    rw [String.data_append]
    exact List.drop_left a.data t.data
  exact String.ext h

/-- Appending a nonempty string changes a string. -/
theorem str_append_ne (a t : String) (ht : t ≠ "") : a ++ t ≠ a := by
  intro h
  apply ht
  have hd : a.data ++ t.data = a.data ++ [] := by
    rw [List.append_nil, ← String.data_append, h]
  exact String.ext (List.append_cancel_left hd)

/-- The dedup loop emits no `stream-chunk` events. -/
theorem deltasOf_emitPendingToolCalls (cur tcs : List ToolCallDict) :
    deltasOf (emitPendingToolCalls cur tcs).1 = [] := by
  rw [deltasOf, List.filterMap_eq_nil_iff]
  intro e he
  obtain ⟨tc, rfl⟩ := mem_emitPendingToolCalls e tcs cur he
  rfl

/-- The tool-result scan emits no `stream-chunk` events. -/
theorem deltasOf_toolResultEvents (ms : List LCMessage) :
    deltasOf (toolResultEvents ms) = [] := by
  rw [deltasOf, List.filterMap_eq_nil_iff]
  intro e he
  obtain ⟨i, r, rfl, _⟩ := mem_toolResultEvents e ms he
  rfl

/-- The todos step emits no `stream-chunk` events. -/
theorem deltasOf_todosPart (st : StreamState) (td : Option (List String)) :
    deltasOf (todosPart st td).1 = [] := by
  rcases td with _ | ts
  · simp [todosPart, deltasOf]
  · by_cases h : ts ≠ st.last_todos <;> simp [todosPart, h, deltasOf]

/-- The files step emits no `stream-chunk` events. -/
theorem deltasOf_filesPart (st : StreamState) (fl : Option (List String)) :
    deltasOf (filesPart st fl).1 = [] := by
  rcases fl with _ | fs
  · simp [filesPart, deltasOf]
  · by_cases h : fs ≠ st.last_files <;> simp [filesPart, h, deltasOf]

/-- `deltasOf` distributes over concatenation. -/
theorem deltasOf_append (l1 l2 : List Event) :
    deltasOf (l1 ++ l2) = deltasOf l1 ++ deltasOf l2 :=
  List.filterMap_append l1 l2 _

/-- `concatStrs` distributes over concatenation. -/
theorem concatStrs_append (l1 l2 : List String) :
    concatStrs (l1 ++ l2) = concatStrs l1 ++ concatStrs l2 := by
  induction l1 with
  | nil => simp [concatStrs, String.empty_append]
  | cons s rest ih => simp [concatStrs, ih, String.append_assoc]

/-- The todos step does not touch the content accumulator. -/
theorem todosPart_preserves_ai (st : StreamState) (td : Option (List String)) :
    ((todosPart st td).2).last_ai_content = st.last_ai_content := by
  rcases td with _ | ts
  · simp [todosPart]
  · by_cases h : ts ≠ st.last_todos <;> simp [todosPart, h]

/-- The files step does not touch the content accumulator. -/
theorem filesPart_preserves_ai (st : StreamState) (fl : Option (List String)) :
    ((filesPart st fl).2).last_ai_content = st.last_ai_content := by
  rcases fl with _ | fs
  · simp [filesPart]
  · by_cases h : fs ≠ st.last_files <;> simp [filesPart, h]

/-- When the last message is not an `AIMessage`, step 1 is a no-op. -/
theorem contentAndToolCallsPart_skip (st : StreamState) (mo : Option LCMessage)
    (h : ∀ content tcs, mo ≠ some (LCMessage.ai content tcs)) :
    contentAndToolCallsPart st mo = ([], st) := by
  rcases mo with _ | m
  · rfl
  rcases m with ⟨content, tcs⟩ | ⟨tid, cc⟩ | _
  · exact absurd rfl (h content tcs)
  · rfl
  · rfl

/-- Step 1 on an `AIMessage` whose string content extends the accumulator:
the concatenated deltas equal the extension and the accumulator becomes the
new content. -/
theorem contentAndToolCallsPart_content (st : StreamState)
    (tcs : List ToolCallDict) (t : String) :
    concatStrs (deltasOf (contentAndToolCallsPart st
        (some (LCMessage.ai (some (st.last_ai_content ++ t)) tcs))).1) = t ∧
    ((contentAndToolCallsPart st
        (some (LCMessage.ai (some (st.last_ai_content ++ t)) tcs))).2).last_ai_content =
      st.last_ai_content ++ t := by
  by_cases ht : t = ""
  · subst ht
    have heq : st.last_ai_content ++ "" = st.last_ai_content :=
      String.append_empty _
    simp only [contentAndToolCallsPart, Option.getD_some, heq, ne_eq,
      not_true_eq_false, if_false, reduceIte]
    constructor
    · rw [deltasOf_append, deltasOf_emitPendingToolCalls]
      simp [deltasOf, concatStrs]
    · simp
  · have hne : st.last_ai_content ++ t ≠ st.last_ai_content :=
      str_append_ne _ t ht
    simp only [contentAndToolCallsPart, Option.getD_some, ne_eq, hne,
      not_false_eq_true, if_true, reduceIte, pySlice_append, ht]
    constructor
    · rw [deltasOf_append, deltasOf_emitPendingToolCalls, List.append_nil]
      simp [deltasOf, concatStrs, String.append_empty]
    · simp

/-- Steps 2-4 contribute no deltas and do not touch the content
accumulator: the deltas and the content state of one loop iteration come
from step 1 alone. -/
theorem processChunkParts_deltas_state (st : StreamState) (c : Chunk) :
    concatStrs (deltasOf (processChunkParts st c).1) =
      concatStrs (deltasOf
        (contentAndToolCallsPart st (c.messages.bind List.getLast?)).1) ∧
    ((processChunkParts st c).2).last_ai_content =
      ((contentAndToolCallsPart st (c.messages.bind List.getLast?)).2).last_ai_content := by
  obtain ⟨mo, td, fl⟩ := c
  simp only [processChunkParts]
  constructor
  · rw [deltasOf_append, deltasOf_append, deltasOf_append,
      deltasOf_todosPart, deltasOf_filesPart]
    rcases mo with _ | ms
    · simp [deltasOf]
    · dsimp only
      rw [deltasOf_toolResultEvents]
      simp
  · rw [filesPart_preserves_ai, todosPart_preserves_ai]

/-- A boolean `isPrefixOf` on character lists yields the list-append
decomposition. -/
theorem isPrefixOf_data (a : List Char) :
    ∀ b : List Char, a.isPrefixOf b = true → ∃ t, a ++ t = b := by
  induction a with
  | nil => intro b _; exact ⟨b, rfl⟩
  | cons x xs ih =>
    intro b h
    cases b with
    | nil => simp [List.isPrefixOf] at h
    | cons y ys =>
      rw [List.isPrefixOf, Bool.and_eq_true] at h
      obtain ⟨hxy, ht⟩ := h
      obtain ⟨t, rfl⟩ := ih ys ht
      exact ⟨t, by rw [beq_iff_eq.mp hxy]; rfl⟩

/-- Invariant behind C1: running the loop from state `st` over snapshots
whose AI contents form a prefix chain starting at the accumulator, the
accumulator followed by all emitted deltas equals the last AI content. -/
theorem runChunks_concat (chunks : List Chunk) :
    ∀ st : StreamState,
      (∀ c ∈ chunks, c.messages ≠ some []) →
      (∀ c ∈ chunks, lastIsNonStringAI c = false) →
      prefixChainFrom st.last_ai_content
        (chunks.filterMap chunkAIContent) = true →
      st.last_ai_content ++ concatStrs (deltasOf (runChunks st chunks).1) =
        (chunks.filterMap chunkAIContent).getLastD st.last_ai_content := by
  induction chunks with
  | nil =>
    intro st _ _ _
    simp [runChunks, deltasOf, concatStrs, String.append_empty]
  | cons c cs ih =>
    intro st hne hstr hchain
    have hcne : c.messages ≠ some [] := hne c (List.mem_cons_self c cs)
    have hcstr : lastIsNonStringAI c = false := hstr c (List.mem_cons_self c cs)
    have hne' : ∀ x ∈ cs, x.messages ≠ some [] := fun x hx =>
      hne x (List.mem_cons_of_mem c hx)
    have hstr' : ∀ x ∈ cs, lastIsNonStringAI x = false := fun x hx =>
      hstr x (List.mem_cons_of_mem c hx)
    rw [runChunks]
    rcases hp : processChunk st c with m | out
    · exfalso
      obtain ⟨mo, td, fl⟩ := c
      rcases mo with _ | ms
      · simp [processChunk] at hp
      · rcases ms with _ | ⟨m', ms'⟩
        · exact hcne rfl
        · simp [processChunk] at hp
    · have hout := processChunk_ok_inv st c out hp
      subst hout
      dsimp only
      rw [deltasOf_append, concatStrs_append, ← String.append_assoc]
      rcases hcc : chunkAIContent c with _ | s
      · have hskipm : ∀ content tcs,
            c.messages.bind List.getLast? ≠ some (LCMessage.ai content tcs) := by
          intro content tcs hbad
          rcases content with _ | s'
          · rw [lastIsNonStringAI, hbad] at hcstr
            simp at hcstr
          · rw [chunkAIContent, hbad] at hcc
            simp at hcc
        obtain ⟨hd, hs⟩ := processChunkParts_deltas_state st c
        rw [contentAndToolCallsPart_skip st _ hskipm] at hd hs
        rw [List.filterMap_cons_none hcc] at hchain ⊢
        rw [hd]
        have hz : concatStrs (deltasOf ([] : List Event)) = "" := rfl
        rw [hz, String.append_empty]
        have ihres := ih (processChunkParts st c).2 hne' hstr'
          (by rw [hs]; exact hchain)
        rw [hs] at ihres
        exact ihres
      · have hinv : ∃ tcs, c.messages.bind List.getLast? =
            some (LCMessage.ai (some s) tcs) := by
          rcases hm : c.messages.bind List.getLast? with _ | m
          · rw [chunkAIContent, hm] at hcc
            simp at hcc
          · rcases m with ⟨content, tcs⟩ | ⟨tid, cc2⟩ | _
            · rcases content with _ | s2
              · rw [chunkAIContent, hm] at hcc
                simp at hcc
              · rw [chunkAIContent, hm] at hcc
                simp only [Option.some.injEq] at hcc
                exact ⟨tcs, by rw [hcc]⟩
            · rw [chunkAIContent, hm] at hcc
              simp at hcc
            · rw [chunkAIContent, hm] at hcc
              simp at hcc
        obtain ⟨tcs, hmsg⟩ := hinv
        rw [List.filterMap_cons_some hcc] at hchain ⊢
        rw [prefixChainFrom, Bool.and_eq_true] at hchain
        obtain ⟨hpre, hchain'⟩ := hchain
        obtain ⟨u, hu⟩ := isPrefixOf_data st.last_ai_content.data s.data hpre
        have hs_eq : s = st.last_ai_content ++ String.mk u := by
          apply String.ext
          rw [String.data_append]
          exact hu.symm
        obtain ⟨hd, hst⟩ := processChunkParts_deltas_state st c
        rw [hmsg, hs_eq] at hd hst
        obtain ⟨hd1, hs1⟩ := contentAndToolCallsPart_content st tcs (String.mk u)
        rw [hd1] at hd
        rw [hs1] at hst
        rw [hd, List.getLastD_cons]
        have ihres := ih (processChunkParts st c).2 hne' hstr'
          (by rw [hst, ← hs_eq]; exact hchain')
        rw [hst, ← hs_eq] at ihres
        rw [← hs_eq]
        exact ihres

/-- Terminal events carry no delta. -/
theorem deltasOf_terminal (t : Event) (h : isTerminalEvent t = true) :
    deltasOf [t] = [] := by
  cases t <;> simp [isTerminalEvent] at h <;> rfl

/-- C1: for a turn whose snapshots carry append-only AI content (each
snapshot's string content extends the previous one as a prefix, starting
from the empty accumulator), concatenating the `content` (delta) fields of
all `stream-chunk` events emitted by `stream_response`, in order, yields
exactly the final snapshot's content. -/
theorem c1_delta_concatenation (chunks : List Chunk) (err : Option String)
    (hne : ∀ c ∈ chunks, c.messages ≠ some [])
    (hstr : ∀ c ∈ chunks, lastIsNonStringAI c = false)
    (hchain : prefixChainFrom "" (chunks.filterMap chunkAIContent) = true) :
    concatStrs (deltasOf (stream_response chunks err)) =
      (chunks.filterMap chunkAIContent).getLastD "" := by
  obtain ⟨t, ht, htt⟩ := stream_response_decomp chunks err
  rw [ht, deltasOf_append, deltasOf_terminal t htt, List.append_nil]
  have hrc := runChunks_concat chunks initStreamState hne hstr hchain
  rw [show initStreamState.last_ai_content = "" from rfl] at hrc
  rw [String.empty_append] at hrc
  exact hrc

/-- Witness for `c1_delta_concatenation` at the spec's scenario
`["Hello", "Hello world"]`. -/
theorem c1_delta_concatenation_witness :
    concatStrs (deltasOf (stream_response
        [aiChunk "Hello", aiChunk "Hello world"] none)) = "Hello world" := by
  simpa using c1_delta_concatenation
    [aiChunk "Hello", aiChunk "Hello world"] none
    (by decide) (by decide) (by decide)
